import Mathlib

/-!
Heimer — verification of the core data model and layout optimizer.

Shallow embedding of the algorithmic core of the Heimer mind-map editor:

* `Node` geometry from `src/node.cpp` (edge-connection points, size
  adjustment, nearest edge-point search) — embedded directly from the
  source, with the toolkit's floating-point coordinates modelled as `ℚ`
  and the configured constants (`Constants::Node::MIN_WIDTH`,
  `MIN_HEIGHT`, `MARGIN`) as parameters, since `constants.hpp` only
  declares them.
* The `Graph` container (`src/graph.hpp`) and the `LayoutOptimizer`
  (`src/layout_optimizer.hpp`): the repository snapshot contains only the
  headers, so their behaviour is modelled from the specification, as
  flagged on each such definition.
-/

namespace Heimer

/-- A 2D point with rational coordinates (embedding of `QPointF`; the
toolkit's `double` coordinates are modelled as `ℚ`). -/
structure Pos where
  x : ℚ
  y : ℚ
deriving DecidableEq, Repr

instance : Inhabited Pos := ⟨⟨0, 0⟩⟩

/-- Embedding of `EdgePoint` from `node.hpp`: a connection point location relative to
the node center, plus a flag telling whether it sits at a corner. -/
structure EdgePoint where
  location : Pos
  isCorner : Bool
deriving DecidableEq, Repr

instance : Inhabited EdgePoint := ⟨⟨⟨0, 0⟩, false⟩⟩

/-- Embedding of `Node::createEdgePoints` from `node.cpp`: with `w2 = width / 2`,
`h2 = height / 2` and `bias = 0.1`, builds the list of 8 connection
points — 4 corner points and 4 points on the side axes pushed outward by
`bias`. -/
def createEdgePoints (width height : Int) : List EdgePoint :=
  let w2 : ℚ := (width : ℚ) * (1/2)
  let h2 : ℚ := (height : ℚ) * (1/2)
  let bias : ℚ := 1/10
  [ ⟨⟨-w2, h2⟩, true⟩,
    ⟨⟨0, h2 + bias⟩, false⟩,
    ⟨⟨w2, h2⟩, true⟩,
    ⟨⟨w2 + bias, 0⟩, false⟩,
    ⟨⟨w2, -h2⟩, true⟩,
    ⟨⟨0, -h2 - bias⟩, false⟩,
    ⟨⟨-w2, -h2⟩, true⟩,
    ⟨⟨-w2 - bias, 0⟩, false⟩ ]

/-- The graphics-layer `Node` state relevant to geometry: its scene
position (`QGraphicsItem::pos`), its size `m_size` (a `QSize`, integer
width and height), and its current edge-connection points. -/
structure NodeG where
  pos : Pos
  width : Int
  height : Int
  edgePoints : List EdgePoint
deriving DecidableEq, Repr

/-- Embedding of `Node::Node()` from `node.cpp`: a fresh node gets
`m_size = QSize(MIN_WIDTH, MIN_HEIGHT)` and then `createEdgePoints()`.
The constants are parameters because `constants.hpp` is not part of the
snapshot. -/
def nodeInit (minWidth minHeight : Int) : NodeG :=
  { pos := ⟨0, 0⟩
    width := minWidth
    height := minHeight
    edgePoints := createEdgePoints minWidth minHeight }

/-- C++ `static_cast<int>` on a `double`: truncation toward zero. -/
def cppTrunc (q : ℚ) : Int :=
  if 0 ≤ q then ⌊q⌋ else ⌈q⌉

/-- Embedding of `Node::adjustSize` from `node.cpp`: with `margin = MARGIN * 2`, the
new size clamps `textEdit bounding rect + margin` below by
`MIN_WIDTH`/`MIN_HEIGHT`, then edge points are recomputed via
`createEdgePoints()`. `textWidth`/`textHeight` stand for the text edit's
bounding rectangle. -/
def adjustSize (margin minWidth minHeight : Int) (textWidth textHeight : ℚ)
    (nd : NodeG) : NodeG :=
  let m2 : Int := margin * 2
  let newWidth := max minWidth (cppTrunc (textWidth + (m2 : ℚ)))
  let newHeight := max minHeight (cppTrunc (textHeight + (m2 : ℚ)))
  { nd with
    width := newWidth
    height := newHeight
    edgePoints := createEdgePoints newWidth newHeight }

/-- The squared distance computed inside the loop of
`Node::getNearestEdgePoints`:
`(p1.x + e1.x - p2.x - e2.x)² + (p1.y + e1.y - p2.y - e2.y)²`. -/
def pairDist (pos1 pos2 : Pos) (pr : EdgePoint × EdgePoint) : ℚ :=
  (pos1.x + pr.1.location.x - pos2.x - pr.2.location.x) ^ 2
    + (pos1.y + pr.1.location.y - pos2.y - pr.2.location.y) ^ 2

/-- Comparison `distance < bestDistance` where `bestDistance` starts at
`std::numeric_limits<double>::max()`: `none` models the initial maximal
value, which every computed distance beats. -/
def better (d : ℚ) : Option ℚ → Bool
  | none => true
  | some b => decide (d < b)

/-- The accumulator loop of `Node::getNearestEdgePoints`, running over
the flattened double loop on edge-point pairs and keeping the pair with
the strictly smallest squared distance seen so far. -/
def selectBest (pos1 pos2 : Pos) :
    List (EdgePoint × EdgePoint) → Option ℚ × (EdgePoint × EdgePoint) →
    Option ℚ × (EdgePoint × EdgePoint)
  | [], acc => acc
  | pr :: rest, (best, bestPair) =>
    let d := pairDist pos1 pos2 pr
    if better d best then
      selectBest pos1 pos2 rest (some d, pr)
    else
      selectBest pos1 pos2 rest (best, bestPair)

/-- The iteration order of the double loop in
`Node::getNearestEdgePoints`: `point1` outer, `point2` inner. -/
def edgePointPairs (node1 node2 : NodeG) : List (EdgePoint × EdgePoint) :=
  node1.edgePoints.flatMap fun p1 => node2.edgePoints.map fun p2 => (p1, p2)

/-- Embedding of `Node::getNearestEdgePoints` from `node.cpp`: scans all pairs of the
two nodes' edge points and returns the pair with minimal squared
distance between the absolute point positions (initial best pair is a
default-constructed pair, initial best distance is the maximal double). -/
def getNearestEdgePoints (node1 node2 : NodeG) : EdgePoint × EdgePoint :=
  (selectBest node1.pos node2.pos (edgePointPairs node1 node2)
    (none, (default, default))).2

/-- The Euclidean distance between the two endpoint positions selected
by an edge-point pair, used to state minimality of the visual connector. -/
noncomputable def euclidDist (pos1 pos2 : Pos) (pr : EdgePoint × EdgePoint) : ℝ :=
  Real.sqrt ((pairDist pos1 pos2 pr : ℚ) : ℝ)

/-! The Graph container.

The snapshot holds only `src/graph.hpp` (declarations); `graph.cpp` is
absent, so the operations are modelled from the specification. -/

/-- A node as the `Graph` container sees it: its integer index and its
2D location (the remaining attributes — text, colors, image reference —
play no role in the claims about `Graph` and the optimizer). -/
structure GNode where
  index : Int
  location : Pos
deriving DecidableEq, Repr

/-- An edge: an ordered pair of node indices (`from`/`to`). -/
structure GEdge where
  n0 : Int
  n1 : Int
deriving DecidableEq, Repr

/-- The `Graph` container from `graph.hpp`: insertion-ordered node
vector, edge vector, and the running index counter `m_count`. -/
structure Graph where
  nodes : List GNode
  edges : List GEdge
  count : Int
deriving DecidableEq, Repr

/-- Embedding of `Graph::numNodes`. -/
def Graph.numNodes (g : Graph) : Nat := g.nodes.length

/-- Modelled from the spec: `addNode` "appends node, assigns it the next
contiguous index" (`graph.cpp` is not in the snapshot). -/
def Graph.addNode (g : Graph) (nd : GNode) : Graph :=
  { g with
    nodes := g.nodes ++ [{ nd with index := g.count }]
    count := g.count + 1 }

/-- Renumber a node list with consecutive indices starting at `k`. -/
def reindexFrom (k : Nat) : List GNode → List GNode
  | [] => []
  | nd :: rest => { nd with index := (k : Int) } :: reindexFrom (k + 1) rest

/-- After deleting index `i`, surviving references to indices above `i`
shift down by one so that indices stay contiguous. -/
def shiftIndex (i j : Int) : Int := if i < j then j - 1 else j

/-- Modelled from the spec: `deleteNode(index)` "removes the node at
`index`; removes every edge touching it; re-indexes remaining nodes to
keep indices contiguous starting at 0. Fails silently / no-ops if index
is out of range" (`graph.cpp` is not in the snapshot). Surviving edges
are renumbered consistently with the node re-indexing. -/
def Graph.deleteNode (g : Graph) (index : Int) : Graph :=
  if 0 ≤ index ∧ index < (g.numNodes : Int) then
    let keptNodes := g.nodes.filter fun nd => nd.index ≠ index
    let keptEdges := (g.edges.filter fun e => e.n0 ≠ index ∧ e.n1 ≠ index).map
      fun e => ⟨shiftIndex index e.n0, shiftIndex index e.n1⟩
    { nodes := reindexFrom 0 keptNodes
      edges := keptEdges
      count := (keptNodes.length : Int) }
  else
    g

/-- The spec's contiguity invariant: "node indices are dense non-negative
integers … so that indices always form a contiguous range
`[0, numNodes)`". -/
def Graph.contiguous (g : Graph) : Prop :=
  g.nodes.map GNode.index = (List.range g.numNodes).map Int.ofNat

instance (g : Graph) : Decidable g.contiguous := by
  unfold Graph.contiguous; infer_instance

/-- The spec's edge invariant: "every edge refers to two nodes currently
present in the graph". -/
def Graph.edgesValid (g : Graph) : Prop :=
  ∀ e ∈ g.edges, 0 ≤ e.n0 ∧ e.n0 < (g.numNodes : Int)
    ∧ 0 ≤ e.n1 ∧ e.n1 < (g.numNodes : Int)

instance (g : Graph) : Decidable g.edgesValid := by
  unfold Graph.edgesValid; infer_instance

/-! The layout optimizer.

The snapshot holds only `src/layout_optimizer.hpp`; the implementation
class is absent, so the search loop is modelled from the specification:
a bounded iterative local search that perturbs one node at a time (to a
grid-snapped coordinate when the grid is enabled), accepts a candidate
only when it does not increase total cost, and keeps all intermediate
positions in optimizer-private working state. Edge lengths enter the
cost as squared distances, an admissible instance of the spec's
"weighted sum" whose exact weighting is declared a tuning choice. -/

/-- The `Grid` as the optimizer consumes it: "a snapping interval and an
enabled/disabled flag". -/
structure Grid where
  enabled : Bool
  size : ℚ
deriving DecidableEq, Repr

/-- Round to nearest integer (as quantization for grid snapping). -/
def snapCoord (g x : ℚ) : ℚ := g * (round (x / g) : Int)

/-- Snap a position to the grid when the grid is enabled. -/
def Grid.snapPos (grid : Grid) (p : Pos) : Pos :=
  if grid.enabled then ⟨snapCoord grid.size p.x, snapCoord grid.size p.y⟩ else p

/-- Embedding of `LayoutOptimizer::OptimizationInfo` from `layout_optimizer.hpp`. -/
structure OptimizationInfo where
  initialCost : ℚ
  finalCost : ℚ
  changes : Nat
deriving DecidableEq, Repr

/-- The optimizer state: the shared `MindMapData` graph it was
constructed against, the consumed `Grid`, the `initialize` parameters,
the private working layout (one candidate position per node), the
`initialize` flag and the seedable pseudo-random state. -/
structure LayoutOptimizer where
  mindMapGraph : Graph
  grid : Grid
  aspect : ℚ
  minEdgeLength : ℚ
  layout : List Pos
  initialized : Bool
  seed : Nat
deriving DecidableEq, Repr

/-- Construction: bind the optimizer to a shared graph and a grid, with
an injectable random seed (spec: "the random source must be
seedable/injectable"). -/
def mkOptimizer (g : Graph) (grid : Grid) (seed : Nat) : LayoutOptimizer :=
  { mindMapGraph := g
    grid := grid
    aspect := 1
    minEdgeLength := 0
    layout := []
    initialized := false
    seed := seed }

/-- Modelled from the spec: `initialize(aspectRatio, minEdgeLength)`
"seeds the optimizer's internal state"; the working layout is seeded
from the shared graph's current node locations, quantized by the grid
(spec: the optimizer "snaps node positions to the grid when the grid is
enabled"). -/
def LayoutOptimizer.initializeLayout (lo : LayoutOptimizer) (a m : ℚ) : LayoutOptimizer :=
  { lo with
    aspect := a
    minEdgeLength := m
    layout := lo.mindMapGraph.nodes.map fun nd => lo.grid.snapPos nd.location
    initialized := true }

/-- Squared Euclidean distance between two positions. -/
def sqDist (p q : Pos) : ℚ := (p.x - q.x) ^ 2 + (p.y - q.y) ^ 2

/-- The squared length of an edge under a working layout (out-of-range
indices read the origin, which cannot occur for a valid graph). -/
def edgeLenSq (layout : List Pos) (e : GEdge) : ℚ :=
  sqDist (layout.getD e.n0.toNat default) (layout.getD e.n1.toNat default)

/-- Penalty for an edge shorter than `minEdgeLength` (compared on
squares to stay in `ℚ`). -/
def shortEdgePenalty (minLen : ℚ) (layout : List Pos) (e : GEdge) : ℚ :=
  if edgeLenSq layout e < minLen ^ 2 then minLen ^ 2 - edgeLenSq layout e else 0

/-- Width and height of the bounding box of a layout. -/
def boundingBox (layout : List Pos) : ℚ × ℚ :=
  match layout with
  | [] => (0, 0)
  | p :: rest =>
    let xs := (p :: rest).map Pos.x
    let ys := (p :: rest).map Pos.y
    (xs.foldl max p.x - xs.foldl min p.x, ys.foldl max p.y - ys.foldl min p.y)

/-- Penalty for deviation of the bounding-box aspect from the target
(zero for a degenerate box). -/
def aspectPenalty (a : ℚ) (layout : List Pos) : ℚ :=
  |((boundingBox layout).1 - a * (boundingBox layout).2)|

/-- Modelled from the spec: the cost function — "a weighted sum over
(i) total edge length …, (ii) penalty for edges shorter than
`minEdgeLength` …, (iii) penalty for deviation of the overall
bounding-box aspect ratio from the target", with unit weights and
squared lengths (weighting is a declared tuning choice). -/
def totalCost (a minLen : ℚ) (edges : List GEdge) (layout : List Pos) : ℚ :=
  (edges.map fun e => edgeLenSq layout e).sum
    + (edges.map fun e => shortEdgePenalty minLen layout e).sum
    + aspectPenalty a layout

/-- A linear congruential pseudo-random step (the injectable random
source of the search). -/
def lcg (s : Nat) : Nat := (s * 1103515245 + 12345) % 2147483648

/-- The running state of the search loop: working layout, its cost,
accepted-move count, PRNG state. -/
structure SearchState where
  layout : List Pos
  cost : ℚ
  changes : Nat
  rng : Nat
deriving DecidableEq, Repr

/-- Modelled from the spec: one candidate move — pick a node
pseudo-randomly, perturb its position (grid-snapped when the grid is
enabled), re-evaluate the total cost and accept the candidate only if
it does not increase the cost ("a candidate move is accepted only if it
does not increase total cost"); `changes` counts accepted moves. -/
def optStep (grid : Grid) (a minLen : ℚ) (edges : List GEdge)
    (st : SearchState) : SearchState :=
  let s1 := lcg st.rng
  let s2 := lcg s1
  let s3 := lcg s2
  let n := st.layout.length
  let i := if n = 0 then 0 else s1 % n
  let p := st.layout.getD i default
  let dx : ℚ := ((s2 % 201 : Nat) : ℚ) - 100
  let dy : ℚ := ((s3 % 201 : Nat) : ℚ) - 100
  let cand := grid.snapPos ⟨p.x + dx, p.y + dy⟩
  let newLayout := st.layout.set i cand
  let newCost := totalCost a minLen edges newLayout
  if newCost ≤ st.cost then
    { layout := newLayout, cost := newCost, changes := st.changes + 1, rng := s3 }
  else
    { st with rng := s3 }

/-- The bounded iteration of the search loop (spec: "bounded number of
iterations … never runs unbounded"). -/
def optLoop (grid : Grid) (a minLen : ℚ) (edges : List GEdge) :
    Nat → SearchState → SearchState
  | 0, st => st
  | fuel + 1, st => optLoop grid a minLen edges fuel (optStep grid a minLen edges st)

/-- The iteration budget: proportional to node count. -/
def iterationBudget (lo : LayoutOptimizer) : Nat :=
  lo.mindMapGraph.numNodes * 20

/-- Modelled from the spec: `optimize()` — degenerate graphs (zero or
one node) take zero iterations and report an all-zero
`OptimizationInfo`; otherwise the bounded search loop runs on the
private working layout, never touching the shared graph, and the
initial/final costs are reported. -/
def LayoutOptimizer.optimize (lo : LayoutOptimizer) :
    LayoutOptimizer × OptimizationInfo :=
  if lo.mindMapGraph.numNodes ≤ 1 then
    (lo, ⟨0, 0, 0⟩)
  else
    let c0 := totalCost lo.aspect lo.minEdgeLength lo.mindMapGraph.edges lo.layout
    let st := optLoop lo.grid lo.aspect lo.minEdgeLength lo.mindMapGraph.edges
      (iterationBudget lo) ⟨lo.layout, c0, 0, lo.seed⟩
    ({ lo with layout := st.layout, seed := st.rng },
     ⟨c0, st.cost, st.changes⟩)

/-- Modelled from the spec: `extract()` "commits the optimized positions
into the original MindMapData's Graph …, overwriting node locations". -/
def LayoutOptimizer.extract (lo : LayoutOptimizer) : LayoutOptimizer :=
  { lo with
    mindMapGraph :=
      { lo.mindMapGraph with
        nodes := List.zipWith (fun nd p => { nd with location := p })
          lo.mindMapGraph.nodes lo.layout } }

/-- The whole optimize-and-extract cycle as a pure function of its
inputs: graph, grid, `initialize` parameters, random seed. -/
def runOptimize (g : Graph) (grid : Grid) (a m : ℚ) (seed : Nat) :
    OptimizationInfo × Graph :=
  let lo := (mkOptimizer g grid seed).initializeLayout a m
  let res := lo.optimize
  (res.2, res.1.extract.mindMapGraph)

/-! Claim-literal predicates and concrete inputs. -/

/-- The exact side midpoints of a node's perimeter, as the specification
words them ("4 midpoints"). -/
def sideMidpointLocations (width height : Int) : List Pos :=
  [ ⟨0, (height : ℚ) * (1/2)⟩,
    ⟨(width : ℚ) * (1/2), 0⟩,
    ⟨0, -((height : ℚ) * (1/2))⟩,
    ⟨-((width : ℚ) * (1/2)), 0⟩ ]

/-- The specification's literal reading of the non-corner connection
points: every non-corner edge point lies exactly at a side midpoint. -/
def edgePointsAtExactMidpoints (width height : Int) : Prop :=
  ∀ p ∈ createEdgePoints width height, p.isCorner = false →
    p.location ∈ sideMidpointLocations width height

instance (w h : Int) : Decidable (edgePointsAtExactMidpoints w h) := by
  unfold edgePointsAtExactMidpoints; infer_instance

/-- Predicate: `x` is an exact integer multiple of the snap interval `g`. -/
def isMultipleOf (g x : ℚ) : Prop := ∃ k : Int, x = g * k

/-- Every position of a layout is grid-aligned in both coordinates. -/
def allSnapped (g : ℚ) (layout : List Pos) : Prop :=
  ∀ p ∈ layout, isMultipleOf g p.x ∧ isMultipleOf g p.y

/-- A concrete 3-node, 2-edge graph (a chain) used to instantiate the
hypotheses of the proved theorems. -/
def exGraph : Graph :=
  { nodes := [⟨0, ⟨0, 0⟩⟩, ⟨1, ⟨10, 0⟩⟩, ⟨2, ⟨0, 10⟩⟩]
    edges := [⟨0, 1⟩, ⟨1, 2⟩]
    count := 3 }

/-- A concrete enabled grid with snap interval 10. -/
def exGrid : Grid := ⟨true, 10⟩

/-- A concrete node pair for instantiating the edge-point theorems. -/
def exNode1 : NodeG := { nodeInit 40 40 with pos := ⟨0, 0⟩ }

/-- Second concrete node, placed to the right of `exNode1`. -/
def exNode2 : NodeG := { nodeInit 40 40 with pos := ⟨100, 0⟩ }

/-! Theorems. -/

/-- Claim C10: a freshly constructed `Node` has size
`(MIN_WIDTH, MIN_HEIGHT)`, and after every `adjustSize()` the width is
at least `MIN_WIDTH` and the height at least `MIN_HEIGHT`, whatever the
text bounding rectangle is. -/
theorem node_size_lower_bound (margin minWidth minHeight : Int)
    (textWidth textHeight : ℚ) (nd : NodeG) :
    (nodeInit minWidth minHeight).width = minWidth ∧
    (nodeInit minWidth minHeight).height = minHeight ∧
    minWidth ≤ (adjustSize margin minWidth minHeight textWidth textHeight nd).width ∧
    minHeight ≤ (adjustSize margin minWidth minHeight textWidth textHeight nd).height := by
  refine ⟨rfl, rfl, ?_, ?_⟩ <;> simp [adjustSize]

/-- Claim C8, counterexample: the claim as stated — non-corner edge
points sit exactly at the side midpoints — is false already for a node
of size 40×40: the code offsets them outward by `bias = 0.1`. -/
theorem edge_points_not_exact_midpoints : ¬ edgePointsAtExactMidpoints 40 40 := by
  intro h
  have hmem : (⟨⟨0, (40 : ℚ) * (1/2) + 1/10⟩, false⟩ : EdgePoint)
      ∈ createEdgePoints 40 40 := by
    simp [createEdgePoints]
  have hloc := h _ hmem rfl
  simp only [sideMidpointLocations, List.mem_cons, List.mem_singleton] at hloc
  rcases hloc with h1 | h1 | h1 | h1 <;>
    · rw [Pos.mk.injEq] at h1
      norm_num at h1

/-- Claim C8, amended: every node exposes exactly 8 edge-connection
points — 4 at the corners, and 4 on the side-midpoint axes offset
outward from the perimeter by a bias of 0.1 — and they are recomputed
from the current size at construction and whenever `adjustSize()`
changes the size. -/
theorem edge_points_spec (w h margin minWidth minHeight : Int)
    (textWidth textHeight : ℚ) (nd : NodeG) :
    (createEdgePoints w h).length = 8 ∧
    ((createEdgePoints w h).filter fun p => p.isCorner).map EdgePoint.location
      = [ ⟨-((w : ℚ) * (1/2)), (h : ℚ) * (1/2)⟩,
          ⟨(w : ℚ) * (1/2), (h : ℚ) * (1/2)⟩,
          ⟨(w : ℚ) * (1/2), -((h : ℚ) * (1/2))⟩,
          ⟨-((w : ℚ) * (1/2)), -((h : ℚ) * (1/2))⟩ ] ∧
    ((createEdgePoints w h).filter fun p => !p.isCorner).map EdgePoint.location
      = [ ⟨0, (h : ℚ) * (1/2) + 1/10⟩,
          ⟨(w : ℚ) * (1/2) + 1/10, 0⟩,
          ⟨0, -((h : ℚ) * (1/2)) - 1/10⟩,
          ⟨-((w : ℚ) * (1/2)) - 1/10, 0⟩ ] ∧
    (nodeInit minWidth minHeight).edgePoints
      = createEdgePoints (nodeInit minWidth minHeight).width
          (nodeInit minWidth minHeight).height ∧
    (adjustSize margin minWidth minHeight textWidth textHeight nd).edgePoints
      = createEdgePoints
          (adjustSize margin minWidth minHeight textWidth textHeight nd).width
          (adjustSize margin minWidth minHeight textWidth textHeight nd).height :=
  ⟨rfl, rfl, rfl, rfl, rfl⟩

/-- Claim C4: for a degenerate graph (zero or one node), `optimize()`
reports `changes == 0` and `initialCost == finalCost == 0`. -/
theorem optimize_degenerate (lo : LayoutOptimizer)
    (h : lo.mindMapGraph.numNodes ≤ 1) :
    lo.optimize.2.changes = 0 ∧ lo.optimize.2.initialCost = 0 ∧
      lo.optimize.2.finalCost = 0 := by
  unfold LayoutOptimizer.optimize
  rw [if_pos h]
  exact ⟨rfl, rfl, rfl⟩

/-- Witness for `optimize_degenerate`: the empty graph. -/
theorem optimize_degenerate_witness :
    ((mkOptimizer ⟨[], [], 0⟩ exGrid 7).initializeLayout 1 50).mindMapGraph.numNodes ≤ 1 ∧
    ((mkOptimizer ⟨[], [], 0⟩ exGrid 7).initializeLayout 1 50).optimize.2.changes = 0 :=
  ⟨by decide,
   (optimize_degenerate ((mkOptimizer ⟨[], [], 0⟩ exGrid 7).initializeLayout 1 50)
     (by decide)).1⟩

/-- Claim C7: `optimize()` never mutates the shared `MindMapData` graph —
all candidate positions live in the optimizer-private working layout,
and node locations change only at `extract()`. -/
theorem optimize_preserves_graph (lo : LayoutOptimizer) :
    lo.optimize.1.mindMapGraph = lo.mindMapGraph := by
  unfold LayoutOptimizer.optimize
  split <;> rfl

/-- Claim C3: `extract()` is idempotent — with no intervening
`optimize()`, a second `extract()` writes the same already-computed
layout, leaving the whole optimizer state (node positions included)
unchanged. -/
theorem extract_idempotent (lo : LayoutOptimizer) :
    lo.extract.extract = lo.extract := by
  have key : ∀ (ns : List GNode) (ps : List Pos),
      List.zipWith (fun nd p => { nd with location := p })
        (List.zipWith (fun nd p => { nd with location := p }) ns ps) ps
      = List.zipWith (fun nd p => { nd with location := p }) ns ps := by
    intro ns
    induction ns with
    | nil => intro ps; rfl
    | cons n ns ih =>
      intro ps
      cases ps with
      | nil => rfl
      | cons p ps => simp [List.zipWith, ih]
  simp [LayoutOptimizer.extract, key]

/-- Claim C6: determinism under seed control — `optimize()` followed by
`extract()` is a pure function of the graph, the grid, the `initialize`
parameters and the injected seed, so two runs with equal inputs yield
identical `OptimizationInfo` and identical extracted node positions. -/
theorem optimize_deterministic (g₁ g₂ : Graph) (grid₁ grid₂ : Grid)
    (a₁ a₂ m₁ m₂ : ℚ) (s₁ s₂ : Nat)
    (hg : g₁ = g₂) (hgrid : grid₁ = grid₂) (ha : a₁ = a₂) (hm : m₁ = m₂)
    (hs : s₁ = s₂) :
    (runOptimize g₁ grid₁ a₁ m₁ s₁).1 = (runOptimize g₂ grid₂ a₂ m₂ s₂).1 ∧
    (runOptimize g₁ grid₁ a₁ m₁ s₁).2.nodes.map GNode.location
      = (runOptimize g₂ grid₂ a₂ m₂ s₂).2.nodes.map GNode.location := by
  subst hg hgrid ha hm hs
  exact ⟨rfl, rfl⟩

/-- Witness for `optimize_deterministic`: two runs on the concrete
chain graph with the same seed. -/
theorem optimize_deterministic_witness :
    (runOptimize exGraph exGrid 1 50 7).1 = (runOptimize exGraph exGrid 1 50 7).1 :=
  (optimize_deterministic exGraph exGraph exGrid exGrid 1 1 50 50 7 7
    rfl rfl rfl rfl rfl).1

/-- One candidate move never increases the tracked cost: the move is
accepted only when the re-evaluated cost is not larger. -/
theorem optStep_cost_le (grid : Grid) (a minLen : ℚ) (edges : List GEdge)
    (st : SearchState) :
    (optStep grid a minLen edges st).cost ≤ st.cost := by
  simp only [optStep]
  split_ifs <;> first | assumption | exact le_refl _

/-- The whole bounded search loop never increases the tracked cost. -/
theorem optLoop_cost_le (grid : Grid) (a minLen : ℚ) (edges : List GEdge) :
    ∀ (fuel : Nat) (st : SearchState),
      (optLoop grid a minLen edges fuel st).cost ≤ st.cost := by
  intro fuel
  induction fuel with
  | zero => intro st; exact le_refl _
  | succ n ih =>
    intro st
    exact le_trans (ih (optStep grid a minLen edges st))
      (optStep_cost_le grid a minLen edges st)

/-- Claim C1: for every graph and every initialized optimizer, the
`OptimizationInfo` returned by `optimize()` satisfies
`finalCost ≤ initialCost`, because candidate moves are accepted only
when they do not increase total cost. -/
theorem optimize_final_le_initial (lo : LayoutOptimizer)
    (h : lo.initialized = true) :
    lo.optimize.2.finalCost ≤ lo.optimize.2.initialCost := by
  unfold LayoutOptimizer.optimize
  split
  · exact le_refl 0
  · exact optLoop_cost_le lo.grid lo.aspect lo.minEdgeLength
      lo.mindMapGraph.edges (iterationBudget lo)
      ⟨lo.layout, totalCost lo.aspect lo.minEdgeLength lo.mindMapGraph.edges lo.layout, 0, lo.seed⟩

/-- Witness for `optimize_final_le_initial`: the concrete chain graph
with an initialized optimizer. -/
theorem optimize_final_le_initial_witness :
    ((mkOptimizer exGraph exGrid 7).initializeLayout 1 50).initialized = true ∧
    ((mkOptimizer exGraph exGrid 7).initializeLayout 1 50).optimize.2.finalCost
      ≤ ((mkOptimizer exGraph exGrid 7).initializeLayout 1 50).optimize.2.initialCost :=
  ⟨rfl, optimize_final_le_initial ((mkOptimizer exGraph exGrid 7).initializeLayout 1 50) rfl⟩

/-- A snapped position is grid-aligned in both coordinates when the
grid is enabled. -/
theorem snapPos_multiple (grid : Grid) (h : grid.enabled = true) (p : Pos) :
    isMultipleOf grid.size (grid.snapPos p).x ∧
      isMultipleOf grid.size (grid.snapPos p).y := by
  simp only [Grid.snapPos, h, if_true]
  exact ⟨⟨round (p.x / grid.size), rfl⟩, ⟨round (p.y / grid.size), rfl⟩⟩

/-- Initialization seeds a fully grid-aligned working layout when the
grid is enabled. -/
theorem initialize_snapped (lo : LayoutOptimizer) (a m : ℚ)
    (h : lo.grid.enabled = true) :
    allSnapped lo.grid.size (lo.initializeLayout a m).layout := by
  intro p hp
  simp only [LayoutOptimizer.initializeLayout, List.mem_map] at hp
  obtain ⟨nd, -, rfl⟩ := hp
  exact snapPos_multiple lo.grid h nd.location

/-- One candidate move keeps the working layout grid-aligned: the
candidate position is snapped before it is written. -/
theorem optStep_snapped (grid : Grid) (a minLen : ℚ) (edges : List GEdge)
    (st : SearchState) (h : grid.enabled = true)
    (hs : allSnapped grid.size st.layout) :
    allSnapped grid.size (optStep grid a minLen edges st).layout := by
  simp only [optStep]
  split_ifs with h1 h2 h3
  all_goals intro p hp
  · rcases List.mem_or_eq_of_mem_set hp with hmem | rfl
    · exact hs p hmem
    · exact snapPos_multiple grid h _
  · exact hs p hp
  · rcases List.mem_or_eq_of_mem_set hp with hmem | rfl
    · exact hs p hmem
    · exact snapPos_multiple grid h _
  · exact hs p hp

/-- The whole search loop keeps the working layout grid-aligned. -/
theorem optLoop_snapped (grid : Grid) (a minLen : ℚ) (edges : List GEdge)
    (h : grid.enabled = true) :
    ∀ (fuel : Nat) (st : SearchState), allSnapped grid.size st.layout →
      allSnapped grid.size (optLoop grid a minLen edges fuel st).layout := by
  intro fuel
  induction fuel with
  | zero => intro st hs; exact hs
  | succ n ih =>
    intro st hs
    exact ih (optStep grid a minLen edges st)
      (optStep_snapped grid a minLen edges st h hs)

/-- Locations written by `extract` all come from the working layout. -/
theorem extract_location_mem :
    ∀ (ns : List GNode) (ps : List Pos) (nd : GNode),
      nd ∈ List.zipWith (fun nd p => { nd with location := p }) ns ps →
      nd.location ∈ ps := by
  intro ns
  induction ns with
  | nil => intro ps nd h; simp [List.zipWith] at h
  | cons n ns ih =>
    intro ps nd h
    cases ps with
    | nil => simp [List.zipWith] at h
    | cons p ps =>
      simp only [List.zipWith, List.mem_cons] at h
      rcases h with rfl | h
      · exact List.mem_cons_self _ _
      · exact List.mem_cons_of_mem _ (ih ps nd h)

/-- Claim C5: with the grid enabled at snap interval `g`, every node
position written back by `extract()` after the optimize cycle has both
coordinates as exact multiples of `g`. -/
theorem extract_positions_snapped (g : Graph) (grid : Grid) (a m : ℚ)
    (seed : Nat) (h : grid.enabled = true) :
    ∀ nd ∈ (runOptimize g grid a m seed).2.nodes,
      isMultipleOf grid.size nd.location.x ∧
        isMultipleOf grid.size nd.location.y := by
  intro nd hnd
  have hinit : allSnapped grid.size ((mkOptimizer g grid seed).initializeLayout a m).layout :=
    initialize_snapped (mkOptimizer g grid seed) a m h
  have hopt : allSnapped grid.size
      (((mkOptimizer g grid seed).initializeLayout a m).optimize.1).layout := by
    unfold LayoutOptimizer.optimize
    split
    · exact hinit
    · exact optLoop_snapped grid a m _ h _ _ hinit
  have hloc : nd.location ∈ (((mkOptimizer g grid seed).initializeLayout a m).optimize.1).layout := by
    apply extract_location_mem _ _ nd
    simpa [runOptimize, LayoutOptimizer.extract] using hnd
  exact hopt nd.location hloc

/-- Witness for `extract_positions_snapped`: the chain graph under the
enabled snap-10 grid. -/
theorem extract_positions_snapped_witness :
    exGrid.enabled = true ∧
    ∀ nd ∈ (runOptimize exGraph exGrid 1 50 7).2.nodes,
      isMultipleOf exGrid.size nd.location.x ∧
        isMultipleOf exGrid.size nd.location.y :=
  ⟨rfl, extract_positions_snapped exGraph exGrid 1 50 7 rfl⟩

/-- Renumbering assigns exactly the consecutive indices starting at `k`. -/
theorem reindexFrom_map_index :
    ∀ (l : List GNode) (k : Nat),
      (reindexFrom k l).map GNode.index = (List.range' k l.length).map Int.ofNat := by
  intro l
  induction l with
  | nil => intro k; rfl
  | cons n l ih =>
    intro k
    simp only [reindexFrom, List.length_cons, List.range', List.map_cons,
      List.cons.injEq]
    exact ⟨rfl, ih (k + 1)⟩

/-- Renumbering preserves the node count. -/
theorem reindexFrom_length : ∀ (l : List GNode) (k : Nat),
    (reindexFrom k l).length = l.length := by
  intro l
  induction l with
  | nil => intro k; rfl
  | cons n l ih => intro k; simp [reindexFrom, ih (k + 1)]

/-- Filtering on a predicate of the index commutes with projecting the
index. -/
theorem map_index_filter (i : Int) : ∀ (l : List GNode),
    (l.filter fun nd => nd.index ≠ i).map GNode.index
      = (l.map GNode.index).filter fun x => x ≠ i := by
  intro l
  induction l with
  | nil => rfl
  | cons nd l ih =>
    simp only [ne_eq, decide_not] at ih ⊢
    by_cases h : nd.index = i
    · simp [List.filter_cons, h, ih]
    · simp [List.filter_cons, h, ih]

/-- Removing the unique occurrence of a value from a duplicate-free
list shortens it by exactly one. -/
theorem filter_ne_length_of_nodup (i : Int) :
    ∀ (l : List Int), l.Nodup → i ∈ l →
      (l.filter fun x => x ≠ i).length = l.length - 1 := by
  intro l
  induction l with
  | nil => intro _ hm; cases hm
  | cons a l ih =>
    intro hnd hm
    simp only [List.nodup_cons] at hnd
    rcases List.mem_cons.mp hm with heq | hm'
    · have ha : a = i := heq.symm
      subst ha
      simp [List.filter_cons]
      intro x hx hxa
      exact hnd.1 (hxa ▸ hx)
    · have hai : a ≠ i := fun h => hnd.1 (h ▸ hm')
      have hlen : 1 ≤ l.length := List.length_pos.mpr (List.ne_nil_of_mem hm')
      have hrec := ih hnd.2 hm'
      simp only [List.filter_cons, hai, List.length_cons]
      simp only [ne_eq, hai, not_false_eq_true, decide_eq_true_eq, if_true]
      rw [List.length_cons, hrec]
      omega

/-- The node indices of a contiguous graph form a duplicate-free list. -/
theorem contiguous_nodup (g : Graph) (hc : g.contiguous) :
    (g.nodes.map GNode.index).Nodup := by
  rw [hc]
  exact (List.nodup_range _).map fun a b => Int.ofNat.inj

/-- In a contiguous graph, every in-range index occurs among the node
indices. -/
theorem contiguous_mem (g : Graph) (hc : g.contiguous) (i : Int)
    (h0 : 0 ≤ i) (h1 : i < (g.numNodes : Int)) :
    i ∈ g.nodes.map GNode.index := by
  rw [hc]
  rcases Int.eq_ofNat_of_zero_le h0 with ⟨n, rfl⟩
  refine List.mem_map.mpr ⟨n, ?_, rfl⟩
  rw [List.mem_range]
  exact_mod_cast h1

/-- Unfolding of `deleteNode` at an in-range index. -/
theorem deleteNode_pos_eq (g : Graph) (i : Int)
    (h : 0 ≤ i ∧ i < (g.numNodes : Int)) :
    g.deleteNode i =
      { nodes := reindexFrom 0 (g.nodes.filter fun nd => nd.index ≠ i)
        edges := (g.edges.filter fun e => e.n0 ≠ i ∧ e.n1 ≠ i).map
          fun e => ⟨shiftIndex i e.n0, shiftIndex i e.n1⟩
        count := ((g.nodes.filter fun nd => nd.index ≠ i).length : Int) } := by
  unfold Graph.deleteNode
  rw [if_pos h]

/-- In-range deletion removes exactly one node of a contiguous graph. -/
theorem deleteNode_kept_length (g : Graph) (i : Int) (hc : g.contiguous)
    (h0 : 0 ≤ i) (h1 : i < (g.numNodes : Int)) :
    (g.nodes.filter fun nd => nd.index ≠ i).length = g.numNodes - 1 := by
  have hmapf := map_index_filter i g.nodes
  have hlen : (g.nodes.filter fun nd => nd.index ≠ i).length
      = ((g.nodes.map GNode.index).filter fun x => x ≠ i).length := by
    rw [← hmapf, List.length_map]
  rw [hlen, filter_ne_length_of_nodup i _ (contiguous_nodup g hc)
    (contiguous_mem g hc i h0 h1), List.length_map]
  rfl

/-- Claim C2: for a well-formed graph, `deleteNode(i)` at an in-range
index removes exactly one node, keeps the remaining indices contiguous
in `[0, N-1)`, leaves every remaining edge referencing valid nodes, and
keeps only (shifted images of) edges that did not touch the deleted
index; an out-of-range index is a silent no-op. -/
theorem deleteNode_spec (g : Graph) (i : Int) (hc : g.contiguous)
    (he : g.edgesValid) :
    (0 ≤ i ∧ i < (g.numNodes : Int) →
      (g.deleteNode i).numNodes = g.numNodes - 1 ∧
      (g.deleteNode i).contiguous ∧
      (g.deleteNode i).edgesValid ∧
      ∀ e' ∈ (g.deleteNode i).edges, ∃ e ∈ g.edges,
        e.n0 ≠ i ∧ e.n1 ≠ i ∧ e' = ⟨shiftIndex i e.n0, shiftIndex i e.n1⟩) ∧
    (¬(0 ≤ i ∧ i < (g.numNodes : Int)) → g.deleteNode i = g) := by
  constructor
  · rintro ⟨h0, h1⟩
    have hkept := deleteNode_kept_length g i hc h0 h1
    have heqd := deleteNode_pos_eq g i ⟨h0, h1⟩
    have hnum : (g.deleteNode i).numNodes = g.numNodes - 1 := by
      rw [heqd]
      show (reindexFrom 0 (g.nodes.filter fun nd => nd.index ≠ i)).length
        = g.numNodes - 1
      rw [reindexFrom_length, hkept]
    have hedges : (g.deleteNode i).edges
        = (g.edges.filter fun e => e.n0 ≠ i ∧ e.n1 ≠ i).map
            (fun e => (⟨shiftIndex i e.n0, shiftIndex i e.n1⟩ : GEdge)) := by
      rw [heqd]
    have hcast : ((g.numNodes - 1 : Nat) : Int) = (g.numNodes : Int) - 1 := by
      omega
    refine ⟨hnum, ?_, ?_, ?_⟩
    · show (g.deleteNode i).nodes.map GNode.index
        = (List.range (g.deleteNode i).numNodes).map Int.ofNat
      rw [hnum, heqd]
      show (reindexFrom 0 (g.nodes.filter fun nd => nd.index ≠ i)).map GNode.index
        = _
      rw [reindexFrom_map_index, List.range_eq_range', hkept]
    · intro e' he'
      rw [hedges] at he'
      simp only [List.mem_map, List.mem_filter] at he'
      obtain ⟨e, ⟨hmem, hpred⟩, rfl⟩ := he'
      have hbounds := he e hmem
      simp only [ne_eq, Bool.and_eq_true, decide_eq_true_eq] at hpred
      rw [hnum, hcast]
      dsimp only
      unfold shiftIndex
      refine ⟨?_, ?_, ?_, ?_⟩ <;> split_ifs <;> omega
    · intro e' he'
      rw [hedges] at he'
      simp only [List.mem_map, List.mem_filter] at he'
      obtain ⟨e, ⟨hmem, hpred⟩, rfl⟩ := he'
      simp only [ne_eq, Bool.and_eq_true, decide_eq_true_eq] at hpred
      exact ⟨e, hmem, hpred.1, hpred.2, rfl⟩
  · intro h
    unfold Graph.deleteNode
    rw [if_neg h]

/-- Witness for `deleteNode_spec`: deleting node 1 of the concrete
3-node chain graph. -/
theorem deleteNode_spec_witness :
    exGraph.contiguous ∧ exGraph.edgesValid ∧
    (0 ≤ (1 : Int) ∧ (1 : Int) < (exGraph.numNodes : Int)) ∧
    (exGraph.deleteNode 1).numNodes = exGraph.numNodes - 1 :=
  ⟨by decide, by decide, by decide,
   ((deleteNode_spec exGraph 1 (by decide) (by decide)).1 (by decide)).1⟩

/-- Invariant of the best-pair loop once a real distance has been
recorded: the tracked distance belongs to the tracked pair, never
increases, and ends up below the distance of every scanned pair. -/
theorem selectBest_spec (pos1 pos2 : Pos) :
    ∀ (l : List (EdgePoint × EdgePoint)) (b : ℚ) (bp : EdgePoint × EdgePoint),
      b = pairDist pos1 pos2 bp →
      (selectBest pos1 pos2 l (some b, bp)).1
          = some (pairDist pos1 pos2 (selectBest pos1 pos2 l (some b, bp)).2) ∧
      pairDist pos1 pos2 (selectBest pos1 pos2 l (some b, bp)).2 ≤ b ∧
      ((selectBest pos1 pos2 l (some b, bp)).2 = bp
        ∨ (selectBest pos1 pos2 l (some b, bp)).2 ∈ l) ∧
      ∀ q ∈ l, pairDist pos1 pos2 (selectBest pos1 pos2 l (some b, bp)).2
          ≤ pairDist pos1 pos2 q := by
  intro l
  induction l with
  | nil =>
    intro b bp hb
    refine ⟨congrArg some hb, hb.ge, Or.inl rfl, ?_⟩
    intro q hq
    cases hq
  | cons pr rest ih =>
    intro b bp hb
    have hsel : selectBest pos1 pos2 (pr :: rest) (some b, bp)
        = if better (pairDist pos1 pos2 pr) (some b) = true
          then selectBest pos1 pos2 rest (some (pairDist pos1 pos2 pr), pr)
          else selectBest pos1 pos2 rest (some b, bp) := rfl
    rw [hsel]
    by_cases hd : pairDist pos1 pos2 pr < b
    · rw [if_pos (by simp [better, hd])]
      obtain ⟨h1, h2, h3, h4⟩ := ih (pairDist pos1 pos2 pr) pr rfl
      refine ⟨h1, le_trans h2 (le_of_lt hd), ?_, ?_⟩
      · rcases h3 with h3 | h3
        · exact Or.inr (by rw [h3]; exact List.mem_cons_self _ _)
        · exact Or.inr (List.mem_cons_of_mem _ h3)
      · intro q hq
        rcases List.mem_cons.mp hq with rfl | hq'
        · exact h2
        · exact h4 q hq'
    · rw [if_neg (by simp [better, hd])]
      obtain ⟨h1, h2, h3, h4⟩ := ih b bp hb
      refine ⟨h1, h2, ?_, ?_⟩
      · rcases h3 with h3 | h3
        · exact Or.inl h3
        · exact Or.inr (List.mem_cons_of_mem _ h3)
      · intro q hq
        rcases List.mem_cons.mp hq with rfl | hq'
        · exact le_trans h2 (not_lt.mp hd)
        · exact h4 q hq'

/-- Starting the loop from the maximal initial distance on a nonempty
pair list yields a scanned pair of minimal distance. -/
theorem selectBest_start (pos1 pos2 : Pos) (l : List (EdgePoint × EdgePoint))
    (hl : l ≠ []) (bp0 : EdgePoint × EdgePoint) :
    (selectBest pos1 pos2 l (none, bp0)).2 ∈ l ∧
    ∀ q ∈ l, pairDist pos1 pos2 (selectBest pos1 pos2 l (none, bp0)).2
        ≤ pairDist pos1 pos2 q := by
  cases l with
  | nil => exact absurd rfl hl
  | cons pr rest =>
    have hsel : selectBest pos1 pos2 (pr :: rest) (none, bp0)
        = selectBest pos1 pos2 rest (some (pairDist pos1 pos2 pr), pr) := rfl
    rw [hsel]
    obtain ⟨h1, h2, h3, h4⟩ :=
      selectBest_spec pos1 pos2 rest (pairDist pos1 pos2 pr) pr rfl
    refine ⟨?_, ?_⟩
    · rcases h3 with h3 | h3
      · rw [h3]; exact List.mem_cons_self _ _
      · exact List.mem_cons_of_mem _ h3
    · intro q hq
      rcases List.mem_cons.mp hq with rfl | hq'
      · exact h2
      · exact h4 q hq'

/-- A scanned pair is one edge point of each node. -/
theorem edgePointPairs_mem (node1 node2 : NodeG) (q : EdgePoint × EdgePoint)
    (hq : q ∈ edgePointPairs node1 node2) :
    q.1 ∈ node1.edgePoints ∧ q.2 ∈ node2.edgePoints := by
  simp only [edgePointPairs, List.mem_flatMap, List.mem_map] at hq
  obtain ⟨a, ha, b, hb, rfl⟩ := hq
  exact ⟨ha, hb⟩

/-- Claim C9: `getNearestEdgePoints(node1, node2)` returns a pair of edge
points of the two nodes minimizing the distance between
`node1.pos + point1.location` and `node2.pos + point2.location` over
all 8 × 8 combinations — both for the squared distance the code
compares and for the Euclidean distance (the shortest visual
connector). -/
theorem getNearestEdgePoints_minimal (node1 node2 : NodeG)
    (p1 p2 : EdgePoint) (hp1 : p1 ∈ node1.edgePoints)
    (hp2 : p2 ∈ node2.edgePoints) :
    (getNearestEdgePoints node1 node2).1 ∈ node1.edgePoints ∧
    (getNearestEdgePoints node1 node2).2 ∈ node2.edgePoints ∧
    pairDist node1.pos node2.pos (getNearestEdgePoints node1 node2)
      ≤ pairDist node1.pos node2.pos (p1, p2) ∧
    euclidDist node1.pos node2.pos (getNearestEdgePoints node1 node2)
      ≤ euclidDist node1.pos node2.pos (p1, p2) := by
  have hmem : (p1, p2) ∈ edgePointPairs node1 node2 := by
    simp only [edgePointPairs, List.mem_flatMap, List.mem_map]
    exact ⟨p1, hp1, p2, hp2, rfl⟩
  have hne : edgePointPairs node1 node2 ≠ [] := List.ne_nil_of_mem hmem
  obtain ⟨hin, hmin⟩ :=
    selectBest_start node1.pos node2.pos (edgePointPairs node1 node2) hne
      (default, default)
  have hproj := edgePointPairs_mem node1 node2 _ hin
  have hle := hmin (p1, p2) hmem
  refine ⟨hproj.1, hproj.2, hle, ?_⟩
  apply Real.sqrt_le_sqrt
  exact_mod_cast hle

/-- Witness for `getNearestEdgePoints_minimal`: the two concrete 40×40
nodes and their first corner points. -/
theorem getNearestEdgePoints_minimal_witness :
    (⟨⟨-20, 20⟩, true⟩ : EdgePoint) ∈ exNode1.edgePoints ∧
    (⟨⟨-20, 20⟩, true⟩ : EdgePoint) ∈ exNode2.edgePoints ∧
    (getNearestEdgePoints exNode1 exNode2).1 ∈ exNode1.edgePoints :=
  ⟨by norm_num [exNode1, nodeInit, createEdgePoints],
   by norm_num [exNode2, nodeInit, createEdgePoints],
   (getNearestEdgePoints_minimal exNode1 exNode2 ⟨⟨-20, 20⟩, true⟩
     ⟨⟨-20, 20⟩, true⟩
     (by norm_num [exNode1, nodeInit, createEdgePoints])
     (by norm_num [exNode2, nodeInit, createEdgePoints])).1⟩

end Heimer
